import Mathlib

/-!
Verification of the project-synchronization core of the `bandana` editor.

The Rust sources are shallowly embedded: pure data types become Lean
structures, file-system and process effects become explicit state passing
(`Fs` maps paths to content plus modification time, spawn outcomes and
parsed output lines are inputs to a pure job function), and machine
integers become `Nat`.  Definitions follow `src/project.rs`,
`src/build.rs` and `src/fs_watcher.rs`; external library behaviour that
the repository only calls (the `ron` text codec, `serde_json` line
decoding) is modelled where noted.
-/

/-! ## Diagnostic model (src/project.rs, `Diagnostic`) -/

/-- `Diagnostic` from src/project.rs: file path, line, column, message.
`PathBuf` is embedded as `String`, `u32` as `Nat`. -/
structure Diagnostic where
  file : String
  line : Nat
  col : Nat
  msg : String
deriving DecidableEq

/-! ## Cargo message model (src/build.rs)

`serde_json` decoding of each output line is external to the repository;
a line is embedded as `Option CargoMessage`: `none` for a line that does
not decode to a recognised message shape, `some m` for one that decodes
to `m`.  The message record types mirror src/build.rs exactly. -/

/-- `Span` from src/build.rs. -/
structure Span where
  file_name : String
  line_start : Nat
  column_start : Nat
deriving DecidableEq

/-- `MessageDetail` from src/build.rs (`code` is present in the source
struct but unused by `to_diag`; it is carried as an optional code
string). -/
structure MessageDetail where
  code : Option String
  message : String
  level : String
  spans : List Span
deriving DecidableEq

/-- `RustcMessage` from src/build.rs. -/
structure RustcMessage where
  message : MessageDetail
deriving DecidableEq

/-- `CargoMessage` from src/build.rs: the tagged `reason` union. -/
inductive CargoMessage where
  | compilerMessage (message : RustcMessage)
  | other
deriving DecidableEq

/-- Rust's `str::trim` on the character list: drop leading and trailing
whitespace. -/
def trimChars (s : List Char) : List Char :=
  ((s.dropWhile Char.isWhitespace).reverse.dropWhile Char.isWhitespace).reverse

/-- Rust's `str::trim`. -/
def strTrim (s : String) : String := ⟨trimChars s.data⟩

/-- `CargoMessage::to_diag` from src/build.rs: the first span (if any)
supplies file/line/column, the message is `"[" ++ level ++ "] "` followed
by the trimmed human-readable text. -/
def CargoMessage.to_diag : CargoMessage → Option Diagnostic
  | .compilerMessage m =>
    match m.message.spans.head? with
    | none => none
    | some span =>
      some { file := span.file_name
             line := span.line_start
             col := span.column_start
             msg := "[" ++ m.message.level ++ "] " ++ strTrim m.message.message }
  | .other => none

/-! ## Build worker per-job semantics (src/build.rs, `BuildWorker::start`) -/

/-- `BuildResult` from src/build.rs. -/
inductive BuildResult where
  | ok (duration_ms : Nat)
  | err (duration_ms : Nat) (diagnostics : List Diagnostic)
deriving DecidableEq

/-- The diagnostics carried by a `BuildResult` (`Ok` carries none). -/
def BuildResult.diags : BuildResult → List Diagnostic
  | .ok _ => []
  | .err _ ds => ds

/-- Outcome of attempting to spawn the external `cargo check` process:
either the spawn fails with an error text, or it spawns and yields a
stream of stdout lines (each already decoded, `none` for unrecognised
lines) together with an exit code. -/
inductive SpawnOutcome where
  | failed (err : String)
  | spawned (lines : List (Option CargoMessage)) (exit_code : Int)

/-- Diagnostic collection loop of `BuildWorker::start`: every line that
decodes to a message contributing a diagnostic is pushed, in order. -/
def collectDiags (lines : List (Option CargoMessage)) : List Diagnostic :=
  lines.filterMap (fun l => l.bind CargoMessage.to_diag)

/-- One `BuildJob::Check` processed by `BuildWorker::start`: on spawn
failure one synthetic diagnostic (file = root, line = col = 0, message
prefixed `failed to spawn cargo: `) with duration 0; otherwise the
collected diagnostics decide `ok`/`err` and `dt` is the elapsed time. -/
def runCheckJob (root : String) (sp : SpawnOutcome) (dt : Nat) : BuildResult :=
  match sp with
  | .failed e =>
    .err 0 [{ file := root, line := 0, col := 0,
              msg := "failed to spawn cargo: " ++ e }]
  | .spawned lines _exit =>
    let diags := collectDiags lines
    if diags.isEmpty then .ok dt else .err dt diags

/-- Does every span mentioned by the decoded lines carry 1-based line and
column numbers? -/
def spansOneBased (lines : List (Option CargoMessage)) : Bool :=
  lines.all (fun l =>
    match l with
    | none => true
    | some .other => true
    | some (.compilerMessage m) =>
      m.message.spans.all (fun s => 1 ≤ s.line_start && 1 ≤ s.column_start))

/-! ## Scene document model (src/project.rs)

The scene text codec is the external `ron` crate (pretty serialization
with struct names, two-space indent, expanded arrays; parsing with
`ron::from_str`).  That crate is not part of this repository, so the
codec below is modelled from the spec: a stable, human-readable,
pretty-printed structured text form whose parser inverts the printer.
The struct shapes, field names and field order come from src/project.rs. -/

/-- Characters that may occur in a rendered float token. -/
def floatChar (c : Char) : Bool :=
  c.isDigit || c == '.' || c == '-'

/-- Modelled from the spec: an `f32` scene value is carried as the decimal
display token the external codec renders it to (Rust's float display is
injective on `f32`, so token equality is value equality).  A token is a
nonempty string over digits, `.` and `-`. -/
def F32 : Type := { s : List Char // s ≠ [] ∧ ∀ c ∈ s, floatChar c = true }

instance : DecidableEq F32 := fun a b =>
  decidable_of_iff (a.val = b.val) Subtype.ext_iff.symm

/-- `CompData` from src/project.rs: the flat union of all optional
component fields, in source order. -/
structure CompData where
  translation : Option (F32 × F32 × F32)
  look_at : Option (F32 × F32 × F32)
  rot_x_deg : Option F32
  shape : Option String
  radius : Option F32
  x : Option F32
  y : Option F32
  z : Option F32
  color : Option (F32 × F32 × F32 × F32)
  shadows_enabled : Option Bool
deriving DecidableEq

/-- `ComponentDoc` from src/project.rs. -/
structure ComponentDoc where
  type_id : String
  data : CompData
deriving DecidableEq

/-- `EntityDoc` from src/project.rs. -/
structure EntityDoc where
  id : String
  components : List ComponentDoc
deriving DecidableEq

/-- `SceneDoc` from src/project.rs: the ordered entity sequence. -/
structure SceneDoc where
  entities : List EntityDoc
deriving DecidableEq

/-- `ProjectConfig` from src/project.rs. -/
structure ProjectConfig where
  name : String
  entry : String
  bevy_version : String
deriving DecidableEq

/-! ### Pretty serializer (save path) -/

/-- The characters of a string literal token. -/
def chars (s : String) : List Char := s.data

/-- Escape one character for a quoted string token. -/
def escChar (c : Char) : List Char :=
  if c = '\"' ∨ c = '\\' then ['\\', c] else [c]

/-- Escape a whole string body. -/
def escStr (s : List Char) : List Char := (s.map escChar).flatten

/-- A quoted, escaped string token. -/
def serStrTok (s : String) : List Char := chars "\"" ++ (escStr s.data ++ chars "\"")

/-- Newline plus two-space-per-level indentation (the `indentor("  ")`
pretty configuration of the save path). -/
def nlInd (i : Nat) : List Char := '\n' :: List.replicate (2 * i) ' '

/-- A float token is rendered verbatim. -/
def serF32 (v : F32) : List Char := v.val

/-- A boolean token. -/
def serBool : Bool → List Char
  | true => chars "true"
  | false => chars "false"

/-- A 3-tuple of floats. -/
def serTup3 (t : F32 × F32 × F32) : List Char :=
  chars "(" ++ (serF32 t.1 ++ (chars "," ++ (chars " " ++ (serF32 t.2.1 ++
    (chars "," ++ (chars " " ++ (serF32 t.2.2 ++ chars ")")))))))

/-- A 4-tuple of floats. -/
def serTup4 (t : F32 × F32 × F32 × F32) : List Char :=
  chars "(" ++ (serF32 t.1 ++ (chars "," ++ (chars " " ++ (serF32 t.2.1 ++
    (chars "," ++ (chars " " ++ (serF32 t.2.2.1 ++ (chars "," ++ (chars " " ++
    (serF32 t.2.2.2 ++ chars ")"))))))))))

/-- An optional value: `None` or `Some(...)`. -/
def serOpt (f : α → List Char) : Option α → List Char
  | none => chars "None"
  | some v => chars "Some(" ++ (f v ++ chars ")")

/-- One named struct field on its own indented line, with trailing comma. -/
def serField (i : Nat) (name : String) (v : List Char) : List Char :=
  nlInd i ++ (chars name ++ (chars ":" ++ (chars " " ++ (v ++ chars ","))))

/-- `CompData` in pretty form, fields in declaration order. -/
def serCompData (i : Nat) (d : CompData) : List Char :=
  chars "CompData(" ++
  (serField (i+1) "translation" (serOpt serTup3 d.translation) ++
  (serField (i+1) "look_at" (serOpt serTup3 d.look_at) ++
  (serField (i+1) "rot_x_deg" (serOpt serF32 d.rot_x_deg) ++
  (serField (i+1) "shape" (serOpt serStrTok d.shape) ++
  (serField (i+1) "radius" (serOpt serF32 d.radius) ++
  (serField (i+1) "x" (serOpt serF32 d.x) ++
  (serField (i+1) "y" (serOpt serF32 d.y) ++
  (serField (i+1) "z" (serOpt serF32 d.z) ++
  (serField (i+1) "color" (serOpt serTup4 d.color) ++
  (serField (i+1) "shadows_enabled" (serOpt serBool d.shadows_enabled) ++
  (nlInd i ++ chars ")")))))))))))

/-- `ComponentDoc` in pretty form. -/
def serComponentDoc (i : Nat) (c : ComponentDoc) : List Char :=
  chars "ComponentDoc(" ++
  (serField (i+1) "type_id" (serStrTok c.type_id) ++
  (serField (i+1) "data" (serCompData (i+1) c.data) ++
  (nlInd i ++ chars ")")))

/-- The item block of a nonempty pretty list: each element on its own
line, trailing comma after each. -/
def serListItems (f : α → List Char) (i : Nat) (xs : List α) : List Char :=
  (xs.map (fun x => nlInd (i+1) ++ (f x ++ chars ","))).flatten

/-- A pretty list: `[]` when empty, expanded elements otherwise. -/
def serList (f : α → List Char) (i : Nat) (xs : List α) : List Char :=
  match xs with
  | [] => chars "[" ++ chars "]"
  | _ :: _ => chars "[" ++ (serListItems f i xs ++ (nlInd i ++ chars "]"))

/-- `EntityDoc` in pretty form. -/
def serEntityDoc (i : Nat) (e : EntityDoc) : List Char :=
  chars "EntityDoc(" ++
  (serField (i+1) "id" (serStrTok e.id) ++
  (serField (i+1) "components" (serList (serComponentDoc (i+2)) (i+1) e.components) ++
  (nlInd i ++ chars ")")))

/-- `SceneDoc` in pretty form (the text `save_design` writes). -/
def serSceneDoc (d : SceneDoc) : List Char :=
  chars "SceneDoc(" ++
  (serField 1 "entities" (serList (serEntityDoc 2) 1 d.entities) ++
  (nlInd 0 ++ chars ")"))

/-- The scene text written by the save path. -/
def serializeScene (d : SceneDoc) : String := ⟨serSceneDoc d⟩

/-- `ProjectConfig` in pretty form. -/
def serProjectConfig (c : ProjectConfig) : List Char :=
  chars "ProjectConfig(" ++
  (serField 1 "name" (serStrTok c.name) ++
  (serField 1 "entry" (serStrTok c.entry) ++
  (serField 1 "bevy_version" (serStrTok c.bevy_version) ++
  (nlInd 0 ++ chars ")"))))

/-! ### Parser (load/reload path)

Modelled from the spec: `ron::from_str` for the document types above — a
recursive-descent reader of the structured text form, whitespace-
insensitive between tokens, failing (`none`) on any malformed input. -/

/-- Inter-token whitespace. -/
def isWs (c : Char) : Bool := c == ' ' || c == '\n'

/-- Skip leading inter-token whitespace. -/
def skipWs : List Char → List Char
  | [] => []
  | c :: cs => if isWs c then skipWs cs else c :: cs

/-- Consume an exact token at the head of the input. -/
def dropTok : List Char → List Char → Option (List Char)
  | [], inp => some inp
  | _ :: _, [] => none
  | t :: ts, c :: cs => if t = c then dropTok ts cs else none

/-- Skip whitespace, then consume an exact token. -/
def expectTok (t : List Char) (inp : List Char) : Option (List Char) :=
  dropTok t (skipWs inp)

/-- Read a quoted string body up to the closing quote, unescaping
backslash escapes. -/
def readStrBody : List Char → Option (List Char × List Char)
  | [] => none
  | c :: cs =>
    if c = '\\' then
      match cs with
      | [] => none
      | d :: cs2 => (readStrBody cs2).map (fun p => (d :: p.1, p.2))
    else if c = '\"' then some ([], cs)
    else (readStrBody cs).map (fun p => (c :: p.1, p.2))

/-- Parse a quoted string token. -/
def parseStrTok (inp : List Char) : Option (String × List Char) := do
  let r ← expectTok (chars "\"") inp
  let (s, r2) ← readStrBody r
  some (⟨s⟩, r2)

/-- Parse a float token: the maximal run of float characters, which must
be nonempty. -/
def parseF32 (inp : List Char) : Option (F32 × List Char) :=
  let r := skipWs inp
  let tok := r.takeWhile floatChar
  if h : tok ≠ [] ∧ ∀ c ∈ tok, floatChar c = true then
    some (⟨tok, h⟩, r.dropWhile floatChar)
  else none

/-- Parse a boolean token. -/
def parseBool (inp : List Char) : Option (Bool × List Char) :=
  match expectTok (chars "true") inp with
  | some r => some (true, r)
  | none =>
    match expectTok (chars "false") inp with
    | some r => some (false, r)
    | none => none

/-- Parse an optional value: `None` or `Some(...)`. -/
def parseOpt (p : List Char → Option (α × List Char)) (inp : List Char) :
    Option (Option α × List Char) :=
  match expectTok (chars "None") inp with
  | some r => some (none, r)
  | none => do
    let r ← expectTok (chars "Some(") inp
    let (v, r2) ← p r
    let r3 ← expectTok (chars ")") r2
    some (some v, r3)

/-- Parse a 3-tuple of floats. -/
def parseTup3 (inp : List Char) : Option ((F32 × F32 × F32) × List Char) := do
  let r ← expectTok (chars "(") inp
  let (a, r) ← parseF32 r
  let r ← expectTok (chars ",") r
  let (b, r) ← parseF32 r
  let r ← expectTok (chars ",") r
  let (c, r) ← parseF32 r
  let r ← expectTok (chars ")") r
  some ((a, b, c), r)

/-- Parse a 4-tuple of floats. -/
def parseTup4 (inp : List Char) : Option ((F32 × F32 × F32 × F32) × List Char) := do
  let r ← expectTok (chars "(") inp
  let (a, r) ← parseF32 r
  let r ← expectTok (chars ",") r
  let (b, r) ← parseF32 r
  let r ← expectTok (chars ",") r
  let (c, r) ← parseF32 r
  let r ← expectTok (chars ",") r
  let (d, r) ← parseF32 r
  let r ← expectTok (chars ")") r
  some ((a, b, c, d), r)

/-- Parse one named struct field followed by its comma. -/
def parseField (name : String) (p : List Char → Option (α × List Char))
    (inp : List Char) : Option (α × List Char) := do
  let r ← expectTok (chars name) inp
  let r ← expectTok (chars ":") r
  let (v, r) ← p r
  let r ← expectTok (chars ",") r
  some (v, r)

/-- Parse a `CompData` record, fields in declaration order. -/
def parseCompData (inp : List Char) : Option (CompData × List Char) := do
  let r ← expectTok (chars "CompData(") inp
  let (translation, r) ← parseField "translation" (parseOpt parseTup3) r
  let (look_at, r) ← parseField "look_at" (parseOpt parseTup3) r
  let (rot_x_deg, r) ← parseField "rot_x_deg" (parseOpt parseF32) r
  let (shape, r) ← parseField "shape" (parseOpt parseStrTok) r
  let (radius, r) ← parseField "radius" (parseOpt parseF32) r
  let (x, r) ← parseField "x" (parseOpt parseF32) r
  let (y, r) ← parseField "y" (parseOpt parseF32) r
  let (z, r) ← parseField "z" (parseOpt parseF32) r
  let (color, r) ← parseField "color" (parseOpt parseTup4) r
  let (shadows_enabled, r) ← parseField "shadows_enabled" (parseOpt parseBool) r
  let r ← expectTok (chars ")") r
  some ({ translation, look_at, rot_x_deg, shape, radius, x, y, z, color,
          shadows_enabled }, r)

/-- Parse a `ComponentDoc` record. -/
def parseComponentDoc (inp : List Char) : Option (ComponentDoc × List Char) := do
  let r ← expectTok (chars "ComponentDoc(") inp
  let (type_id, r) ← parseField "type_id" parseStrTok r
  let (data, r) ← parseField "data" parseCompData r
  let r ← expectTok (chars ")") r
  some ({ type_id, data }, r)

/-- Parse list elements up to the closing bracket; each element is
followed by a comma.  `fuel` bounds the number of elements. -/
def parseListAux (p : List Char → Option (α × List Char)) :
    Nat → List Char → Option (List α × List Char)
  | 0, _ => none
  | fuel + 1, inp =>
    match expectTok (chars "]") inp with
    | some r => some ([], r)
    | none => do
      let (v, r) ← p inp
      let r ← expectTok (chars ",") r
      let (vs, r2) ← parseListAux p fuel r
      some (v :: vs, r2)

/-- Parse a bracketed list. -/
def parseList (p : List Char → Option (α × List Char)) (inp : List Char) :
    Option (List α × List Char) := do
  let r ← expectTok (chars "[") inp
  parseListAux p (r.length + 1) r

/-- Parse an `EntityDoc` record. -/
def parseEntityDoc (inp : List Char) : Option (EntityDoc × List Char) := do
  let r ← expectTok (chars "EntityDoc(") inp
  let (id, r) ← parseField "id" parseStrTok r
  let (components, r) ← parseField "components" (parseList parseComponentDoc) r
  let r ← expectTok (chars ")") r
  some ({ id, components }, r)

/-- Parse a `SceneDoc` record. -/
def parseSceneDoc (inp : List Char) : Option (SceneDoc × List Char) := do
  let r ← expectTok (chars "SceneDoc(") inp
  let (entities, r) ← parseField "entities" (parseList parseEntityDoc) r
  let r ← expectTok (chars ")") r
  some ({ entities }, r)

/-- Parse a whole scene file: the document followed only by whitespace. -/
def parseScene (s : String) : Option SceneDoc :=
  match parseSceneDoc s.data with
  | some (d, rest) => if skipWs rest = [] then some d else none
  | none => none

/-- Parse a `ProjectConfig` record. -/
def parseProjectConfig (inp : List Char) : Option (ProjectConfig × List Char) := do
  let r ← expectTok (chars "ProjectConfig(") inp
  let (name, r) ← parseField "name" parseStrTok r
  let (entry, r) ← parseField "entry" parseStrTok r
  let (bevy_version, r) ← parseField "bevy_version" parseStrTok r
  let r ← expectTok (chars ")") r
  some ({ name, entry, bevy_version }, r)

/-- Parse a whole project config file. -/
def parseConfig (s : String) : Option ProjectConfig :=
  match parseProjectConfig s.data with
  | some (c, rest) => if skipWs rest = [] then some c else none
  | none => none

/-! ## Project session model (src/project.rs, `ProjectState`)

File-system effects are embedded as explicit state: an `Fs` maps a path
to its content and modification time (`SystemTime` embedded as `Nat`);
a missing entry is a path whose metadata/read calls fail. -/

/-- One on-disk file: its text and its modification time. -/
structure FsFile where
  content : String
  mtime : Nat
deriving DecidableEq

/-- A snapshot of the file system. -/
def Fs : Type := String → Option FsFile

/-- Overwrite a path with new text; the write stamps modification time
`wt`. -/
def fsWrite (fs : Fs) (p : String) (txt : String) (wt : Nat) : Fs :=
  fun q => if q = p then some { content := txt, mtime := wt } else fs q

/-- `Path::join` for the two fixed relative paths used by the session. -/
def pjoin (root rel : String) : String := root ++ "/" ++ rel

/-- `ProjectState` from src/project.rs. -/
structure ProjectState where
  root : String
  config : ProjectConfig
  last_diagnostics : List Diagnostic
  design_scene : Option SceneDoc
  design_path : Option String
  design_mtime : Option Nat

/-- `ProjectState::open` from src/project.rs: read and parse
`project.ron` (any failure is an error), then read and parse
`design/initial.scene.ron` if it exists (a parse failure is an error, a
missing file leaves the session with no scene); record the scene file's
modification time. -/
def ProjectState.open (fs : Fs) (dir : String) : Except String ProjectState :=
  let root := dir
  let cfg_path := pjoin root "project.ron"
  match fs cfg_path with
  | none => .error ("reading " ++ cfg_path)
  | some cfgFile =>
    match parseConfig cfgFile.content with
    | none => .error "parsing project.ron"
    | some config =>
      let design_path := pjoin root "design/initial.scene.ron"
      match fs design_path with
      | none =>
        .ok { root, config, last_diagnostics := [],
              design_scene := none, design_path := none, design_mtime := none }
      | some designFile =>
        match parseScene designFile.content with
        | none => .error "parsing design/initial.scene.ron"
        | some scene =>
          .ok { root, config, last_diagnostics := [],
                design_scene := some scene,
                design_path := some design_path,
                design_mtime := some designFile.mtime }

/-- `ProjectState::save_design` from src/project.rs: bail when no design
path or no in-memory scene is known; otherwise serialize the scene in
pretty form, overwrite the design file, and re-read the resulting
modification time as the new baseline.  Returns the file system after
the call, the state after the call, and the error if any.  `wt` is the
modification time the write stamps. -/
def ProjectState.save_design (fs : Fs) (wt : Nat) (st : ProjectState) :
    Fs × ProjectState × Option String :=
  match st.design_path with
  | none => (fs, st, some "no design file")
  | some path =>
    match st.design_scene with
    | none => (fs, st, some "no scene in memory")
    | some scene =>
      let text := serializeScene scene
      let fs2 := fsWrite fs path text wt
      let newMtime := (fs2 path).map (fun f => f.mtime)
      (fs2, { st with design_mtime := newMtime }, none)

/-- `ProjectState::reload_design_if_changed` from src/project.rs: when a
design path is known and its metadata is readable, compare the on-disk
modification time with the baseline (`map (mt > t)` and `unwrap_or
true`); if newer or no baseline, read and re-parse, and only on parse
success replace the scene and advance the baseline.  The boolean records
whether the file was read and re-parsed. -/
def ProjectState.reload_design_if_changed (fs : Fs) (st : ProjectState) :
    ProjectState × Bool :=
  match st.design_path with
  | none => (st, false)
  | some p =>
    match fs p with
    | none => (st, false)
    | some f =>
      let mt := f.mtime
      if (st.design_mtime.map (fun t => decide (t < mt))).getD true then
        match parseScene f.content with
        | some scene =>
          ({ st with design_scene := some scene, design_mtime := some mt }, true)
        | none => (st, true)
      else (st, false)

/-- The session invariant of the spec: a scene is in memory exactly when
a design path is known. -/
def ProjectState.sceneInv (st : ProjectState) : Prop :=
  st.design_scene.isSome = st.design_path.isSome

instance (st : ProjectState) : Decidable st.sceneInv := by
  unfold ProjectState.sceneInv; infer_instance

/-! ## Filesystem watch worker (src/fs_watcher.rs, `WatchWorker::start`)

The `notify` event source and channels are external; one loop iteration
over one received event is embedded as a pure step on the debounce state
(`last_fire`, an `Instant` embedded as a `Nat` of milliseconds). -/

/-- The event-kind classes of `notify::EventKind` that matter to the
filter. -/
inductive EventKind where
  | access
  | create
  | modify
  | remove
  | any
  | other
deriving DecidableEq

/-- The noisy kinds skipped immediately: pure access notifications and
the unclassified `Other` kind. -/
def noisyKind : EventKind → Bool
  | .access => true
  | .other => true
  | _ => false

/-- One filesystem event: a kind and the affected paths. -/
structure FsEvent where
  kind : EventKind
  paths : List String

/-- Does `pat` occur at the head of `s`? -/
def listStartsWith : List Char → List Char → Bool
  | [], _ => true
  | _ :: _, [] => false
  | c :: cs, d :: ds => c == d && listStartsWith cs ds

/-- Does `pat` occur anywhere inside `s`? -/
def hasSub (pat : List Char) : List Char → Bool
  | [] => listStartsWith pat []
  | s@(_ :: rest) => listStartsWith pat s || hasSub pat rest

/-- `p.strip_prefix(&root).unwrap_or(p)`: the path relative to the
project root when it lies under it, the path itself otherwise. -/
def relTo (root p : List Char) : List Char :=
  if p = root then []
  else if listStartsWith (root ++ ['/']) p then p.drop (root.length + 1)
  else p

/-- The per-path ignore test of `WatchWorker::start`: a path is
interesting unless its root-relative form lies under `target/` or
`.git/`. -/
def interestingPath (root p : String) : Bool :=
  let s := relTo root.data p.data
  !(listStartsWith (chars "target/") s || s == chars "target"
    || hasSub (chars "/target/") s || listStartsWith (chars ".git/") s
    || s == chars ".git" || hasSub (chars "/.git/") s)

/-- The debounce window in milliseconds. -/
def debounceMs : Nat := 250

/-- One iteration of the watch loop on a received event: skip noisy
kinds, skip events all of whose paths are ignored, skip events inside
the debounce window; otherwise fire and reset the window.  Returns
whether the event is forwarded and the updated `last_fire`. -/
def watchStep (root : String) (last_fire now : Nat) (e : FsEvent) :
    Bool × Nat :=
  if noisyKind e.kind then (false, last_fire)
  else if !(e.paths.any (interestingPath root)) then (false, last_fire)
  else if now - last_fire < debounceMs then (false, last_fire)
  else (true, now)

/-! ## Auxiliary predicates and concrete instances -/

/-- `rest` does not begin with a character satisfying `p` (so a maximal
`takeWhile p` run stops exactly at `rest`). -/
def headNotP (p : Char → Bool) : List Char → Bool
  | [] => true
  | c :: _ => !p c

/-- The first character of `t` differs from `c`. -/
def headNe (t : List Char) (c : Char) : Bool :=
  match t with
  | tc :: _ => tc != c
  | [] => false

/-- Both strings are nonempty, `u` starts with a non-whitespace
character, and their first characters differ. -/
def charsNeHead (t u : String) : Bool :=
  match t.data, u.data with
  | tc :: _, uc :: _ => !isWs uc && tc != uc
  | _, _ => false

/-- A character list of inter-token whitespace only. -/
def wsOnly (w : List Char) : Prop := ∀ c ∈ w, isWs c = true

instance (w : List Char) : Decidable (wsOnly w) := by
  unfold wsOnly
  infer_instance

/-- The empty file system. -/
def fsEmpty : Fs := fun _ => none

/-- A concrete project config. -/
def cfgEx : ProjectConfig :=
  { name := "demo", entry := "src/main.rs", bevy_version := "0.16" }

/-- A concrete scene document. -/
def sceneEx : SceneDoc :=
  { entities := [{ id := "player", components := [] }] }

/-- A session with a loaded scene and known design path. -/
def stScene : ProjectState :=
  { root := "p", config := cfgEx, last_diagnostics := [],
    design_scene := some sceneEx,
    design_path := some "p/design/initial.scene.ron",
    design_mtime := some 1 }

/-- A file system holding only a well-formed project config. -/
def fsCfg : Fs := fun q =>
  if q = "p/project.ron" then
    some { content := ⟨serProjectConfig cfgEx⟩, mtime := 1 }
  else none

/-- A file system holding a well-formed config and scene file. -/
def fsCfgScene : Fs := fun q =>
  if q = "p/project.ron" then
    some { content := ⟨serProjectConfig cfgEx⟩, mtime := 1 }
  else if q = "p/design/initial.scene.ron" then
    some { content := serializeScene sceneEx, mtime := 2 }
  else none

/-- A file system where the design file was overwritten with malformed
text at time 9. -/
def fsStale : Fs := fun q =>
  if q = "p/design/initial.scene.ron" then
    some { content := "garbage", mtime := 9 }
  else none

/-! # Theorems -/

/-! ## Build worker (claims C4, C5, C9) -/

/-- Helper: `to_diag` of a compiler message with no spans is `none`. -/
theorem to_diag_nil (mm : RustcMessage) (h : mm.message.spans = []) :
    CargoMessage.to_diag (.compilerMessage mm) = none := by
  simp [CargoMessage.to_diag, h]

/-- Helper: `to_diag` of a compiler message with a first span copies that
span and formats the message. -/
theorem to_diag_cons (mm : RustcMessage) (s : Span) (ss : List Span)
    (h : mm.message.spans = s :: ss) :
    CargoMessage.to_diag (.compilerMessage mm) =
      some { file := s.file_name, line := s.line_start, col := s.column_start,
             msg := "[" ++ mm.message.level ++ "] " ++ strTrim mm.message.message } := by
  simp [CargoMessage.to_diag, h]

/-- C5: a parsed compiler-message record with zero spans produces no
diagnostic; with at least one span it produces exactly one diagnostic
taking file, line and column from the first span, with message
`"[" ++ level ++ "] "` followed by the whitespace-trimmed text. -/
theorem to_diag_first_span (m : RustcMessage) :
    (m.message.spans = [] →
      CargoMessage.to_diag (.compilerMessage m) = none) ∧
    (∀ s ss, m.message.spans = s :: ss →
      CargoMessage.to_diag (.compilerMessage m) =
        some { file := s.file_name, line := s.line_start, col := s.column_start,
               msg := "[" ++ m.message.level ++ "] " ++ strTrim m.message.message }) :=
  ⟨to_diag_nil m, fun s ss h => to_diag_cons m s ss h⟩

/-- Witness for `to_diag_first_span`: the spec's scenario — an
error-level message at src/main.rs:10:5 with text "mismatched types". -/
theorem to_diag_first_span_witness :
    CargoMessage.to_diag (.compilerMessage
        ⟨⟨none, " mismatched types ", "error", [⟨"src/main.rs", 10, 5⟩]⟩⟩) =
      some { file := "src/main.rs", line := 10, col := 5,
             msg := "[error] mismatched types" } := by
  rw [(to_diag_first_span
        ⟨⟨none, " mismatched types ", "error", [⟨"src/main.rs", 10, 5⟩]⟩⟩).2
        ⟨"src/main.rs", 10, 5⟩ [] rfl]
  decide

/-- C4: for a spawned check process the outcome is `ok` exactly when no
diagnostics were collected, `err` carries the full collected list
otherwise, the exit code never influences the outcome, and a spawn
failure yields `err` with duration 0 and one synthetic diagnostic
carrying the spawn error text. -/
theorem check_job_outcome (root : String) (lines : List (Option CargoMessage))
    (ec ec2 : Int) (dt : Nat) (e : String) :
    (runCheckJob root (.spawned lines ec) dt = .ok dt ↔ collectDiags lines = []) ∧
    (collectDiags lines ≠ [] →
      runCheckJob root (.spawned lines ec) dt = .err dt (collectDiags lines)) ∧
    runCheckJob root (.spawned lines ec) dt = runCheckJob root (.spawned lines ec2) dt ∧
    runCheckJob root (.failed e) dt =
      .err 0 [{ file := root, line := 0, col := 0,
                msg := "failed to spawn cargo: " ++ e }] := by
  refine ⟨?_, ?_, rfl, rfl⟩
  · by_cases h : collectDiags lines = []
    · simp [runCheckJob, h]
    · simp [runCheckJob, h, List.isEmpty_iff]
  · intro h
    simp [runCheckJob, h, List.isEmpty_iff]

/-- Witness for `check_job_outcome`: a single recognised error message
produces a nonempty diagnostic list and an `err` outcome. -/
theorem check_job_outcome_witness :
    runCheckJob "proj"
        (.spawned [some (.compilerMessage
          ⟨⟨none, "mismatched types", "error", [⟨"src/main.rs", 10, 5⟩]⟩⟩)] 0) 7 =
      .err 7 (collectDiags [some (.compilerMessage
          ⟨⟨none, "mismatched types", "error", [⟨"src/main.rs", 10, 5⟩]⟩⟩)]) :=
  (check_job_outcome "proj" _ 0 1 7 "x").2.1 (by decide)

/-- C9 as stated is false on the code: the spawn-failure path emits a
synthetic diagnostic whose line and column are 0. -/
theorem diag_one_based_counterexample :
    ¬ (∀ d ∈ (runCheckJob "proj" (.failed "no such file") 3).diags,
        1 ≤ d.line ∧ 1 ≤ d.col) := by
  decide

/-- C9 (amended): every diagnostic of a spawned check whose recognised
messages carry only 1-based spans has 1-based line and column (the code
copies the first span verbatim); the synthetic spawn-failure diagnostic
instead has line = 0 and col = 0. -/
theorem diag_one_based_amended (root : String) (lines : List (Option CargoMessage))
    (ec : Int) (dt : Nat) (e : String) :
    (spansOneBased lines = true →
      ∀ d ∈ (runCheckJob root (.spawned lines ec) dt).diags,
        1 ≤ d.line ∧ 1 ≤ d.col) ∧
    (∀ d ∈ (runCheckJob root (.failed e) dt).diags, d.line = 0 ∧ d.col = 0) := by
  constructor
  · intro hs d hd
    have hmem : d ∈ collectDiags lines := by
      by_cases h : collectDiags lines = []
      · simp [runCheckJob, h, BuildResult.diags] at hd
      · simpa [runCheckJob, h, List.isEmpty_iff, BuildResult.diags] using hd
    obtain ⟨l, hl, hld⟩ := List.mem_filterMap.mp hmem
    cases l with
    | none => simp at hld
    | some m =>
      cases m with
      | other => simp [CargoMessage.to_diag] at hld
      | compilerMessage mm =>
        cases hspans : mm.message.spans with
        | nil =>
          rw [Option.some_bind, to_diag_nil mm hspans] at hld
          exact absurd hld (by simp)
        | cons s ss =>
          rw [Option.some_bind, to_diag_cons mm s ss hspans] at hld
          have hsOne : 1 ≤ s.line_start ∧ 1 ≤ s.column_start := by
            have hall := (List.all_eq_true.mp hs) _ hl
            simp only [hspans, List.all_cons, Bool.and_eq_true,
              decide_eq_true_eq] at hall
            exact ⟨hall.1.1, hall.1.2⟩
          cases Option.some_inj.mp hld
          exact hsOne
  · intro d hd
    simp only [runCheckJob, BuildResult.diags, List.mem_singleton] at hd
    subst hd
    exact ⟨rfl, rfl⟩

/-- Witness for `diag_one_based_amended`: a concrete 1-based spawned run
and the concrete spawn-failure run. -/
theorem diag_one_based_amended_witness :
    (∀ d ∈ (runCheckJob "proj"
        (.spawned [some (.compilerMessage
          ⟨⟨none, "oops", "error", [⟨"src/main.rs", 10, 5⟩]⟩⟩)] 0) 7).diags,
        1 ≤ d.line ∧ 1 ≤ d.col) ∧
    (∀ d ∈ (runCheckJob "proj" (.failed "boom") 7).diags,
        d.line = 0 ∧ d.col = 0) :=
  ⟨(diag_one_based_amended "proj"
      [some (.compilerMessage
        ⟨⟨none, "oops", "error", [⟨"src/main.rs", 10, 5⟩]⟩⟩)] 0 7 "boom").1
      (by decide),
   (diag_one_based_amended "proj" [] 0 7 "boom").2⟩

/-! ## Filesystem watch worker (claim C7) -/

/-- C7: an event is forwarded exactly when its kind is neither an access
notification nor the unclassified other kind, at least one affected path
is outside the ignore prefixes, and at least the debounce window has
elapsed since the last forwarded event; in particular an event touching
only ignored paths is never forwarded, and one touching an ignored and
an interesting path is forwarded when the other conditions hold. -/
theorem watch_forward_iff (root : String) (lf now : Nat) (e : FsEvent) :
    ((watchStep root lf now e).1 = true ↔
      (noisyKind e.kind = false ∧ e.paths.any (interestingPath root) = true ∧
       debounceMs ≤ now - lf)) ∧
    ((∀ p ∈ e.paths, interestingPath root p = false) →
      (watchStep root lf now e).1 = false) ∧
    (∀ pIgn pSrc, pIgn ∈ e.paths → pSrc ∈ e.paths →
      interestingPath root pSrc = true → noisyKind e.kind = false →
      debounceMs ≤ now - lf → (watchStep root lf now e).1 = true) := by
  have hiff : (watchStep root lf now e).1 = true ↔
      (noisyKind e.kind = false ∧ e.paths.any (interestingPath root) = true ∧
       debounceMs ≤ now - lf) := by
    by_cases h1 : noisyKind e.kind = true
    · simp [watchStep, h1]
    · by_cases h2 : e.paths.any (interestingPath root) = true
      · by_cases h3 : now - lf < debounceMs
        · simp [watchStep, h1, h2, h3]
        · simp [watchStep, h1, h2, h3]
          omega
      · simp [watchStep, h1, h2]
  refine ⟨hiff, ?_, ?_⟩
  · intro hall
    rw [Bool.eq_false_iff]
    intro htrue
    have := (hiff.mp htrue).2.1
    obtain ⟨p, hp, hint⟩ := List.any_eq_true.mp this
    exact absurd hint (by simp [hall p hp])
  · intro pIgn pSrc _ hSrc hint h1 h3
    exact hiff.mpr ⟨h1, List.any_eq_true.mpr ⟨pSrc, hSrc, hint⟩, h3⟩

/-- Witness for `watch_forward_iff`: a modify event touching a path under
`target/` and a path under `src/`, outside the debounce window, is
forwarded. -/
theorem watch_forward_iff_witness :
    (watchStep "proj" 0 250
      { kind := .modify,
        paths := ["proj/target/debug/app", "proj/src/main.rs"] }).1 = true :=
  (watch_forward_iff "proj" 0 250
      { kind := .modify,
        paths := ["proj/target/debug/app", "proj/src/main.rs"] }).2.2
    "proj/target/debug/app" "proj/src/main.rs"
    (by decide) (by decide) (by decide) (by decide) (by decide)

/-! ## Project session (claims C2, C3, C6, C8, C10) -/

/-- C10: a save with no known design path or no in-memory scene returns
an error, writes nothing to the file system, and leaves the state (all
fields) unchanged. -/
theorem save_design_bail (fs : Fs) (wt : Nat) (st : ProjectState)
    (h : st.design_path = none ∨ st.design_scene = none) :
    (ProjectState.save_design fs wt st).1 = fs ∧
    (ProjectState.save_design fs wt st).2.1 = st ∧
    (ProjectState.save_design fs wt st).2.2.isSome = true := by
  rcases h with h | h
  · simp [ProjectState.save_design, h]
  · cases hp : st.design_path with
    | none => simp [ProjectState.save_design, hp]
    | some p => simp [ProjectState.save_design, hp, h]

/-- Witness for `save_design_bail`: a session with no design path. -/
theorem save_design_bail_witness :
    (ProjectState.save_design fsEmpty 3
      { root := "p", config := cfgEx, last_diagnostics := [],
        design_scene := none, design_path := none,
        design_mtime := none }).2.1 =
      { root := "p", config := cfgEx, last_diagnostics := [],
        design_scene := none, design_path := none, design_mtime := none } :=
  (save_design_bail fsEmpty 3 _ (Or.inl rfl)).2.1

/-- C2: when a save succeeds, the immediately following reload check on
the resulting file system re-reads nothing and leaves the state (hence
the in-memory document) unchanged: the save stored the just-written
file's modification time as the baseline. -/
theorem save_then_reload_no_reparse (fs : Fs) (wt : Nat) (st : ProjectState)
    (h : (ProjectState.save_design fs wt st).2.2 = none) :
    ProjectState.reload_design_if_changed (ProjectState.save_design fs wt st).1
        (ProjectState.save_design fs wt st).2.1 =
      ((ProjectState.save_design fs wt st).2.1, false) := by
  cases hp : st.design_path with
  | none => rw [ProjectState.save_design] at h; simp [hp] at h
  | some p =>
    cases hs : st.design_scene with
    | none => rw [ProjectState.save_design] at h; simp [hp, hs] at h
    | some sc =>
      simp only [ProjectState.save_design, hp, hs]
      simp [ProjectState.reload_design_if_changed, hp, fsWrite]

/-- Witness for `save_then_reload_no_reparse`: saving the concrete loaded
session and immediately checking for reload. -/
theorem save_then_reload_no_reparse_witness :
    ProjectState.reload_design_if_changed
        (ProjectState.save_design fsEmpty 5 stScene).1
        (ProjectState.save_design fsEmpty 5 stScene).2.1 =
      ((ProjectState.save_design fsEmpty 5 stScene).2.1, false) :=
  save_then_reload_no_reparse fsEmpty 5 stScene rfl

/-- C3: the reload check reads and re-parses exactly when a design path
and readable metadata exist and the on-disk modification time is strictly
newer than the baseline or no baseline exists; on parse success it
replaces the document and advances the baseline to that time; on parse
failure it changes nothing (document and baseline kept). -/
theorem reload_policy (fs : Fs) (st : ProjectState) :
    (∀ p f, st.design_path = some p → fs p = some f →
      (((ProjectState.reload_design_if_changed fs st).2 = true ↔
        (st.design_mtime = none ∨ ∃ t, st.design_mtime = some t ∧ t < f.mtime)) ∧
      (∀ sc, parseScene f.content = some sc →
        (st.design_mtime = none ∨ ∃ t, st.design_mtime = some t ∧ t < f.mtime) →
        (ProjectState.reload_design_if_changed fs st).1 =
          { st with design_scene := some sc, design_mtime := some f.mtime }) ∧
      (parseScene f.content = none →
        (ProjectState.reload_design_if_changed fs st).1 = st))) ∧
    (st.design_path = none →
      ProjectState.reload_design_if_changed fs st = (st, false)) ∧
    (∀ p, st.design_path = some p → fs p = none →
      ProjectState.reload_design_if_changed fs st = (st, false)) := by
  refine ⟨?_, ?_, ?_⟩
  · intro p f hp hf
    have hcond : (st.design_mtime.map (fun t => decide (t < f.mtime))).getD true = true ↔
        (st.design_mtime = none ∨ ∃ t, st.design_mtime = some t ∧ t < f.mtime) := by
      cases hm : st.design_mtime with
      | none => simp
      | some t => simp
    refine ⟨?_, ?_, ?_⟩
    · by_cases hc : (st.design_mtime.map (fun t => decide (t < f.mtime))).getD true = true
      · rw [← hcond]
        cases hps : parseScene f.content with
        | none => simp [ProjectState.reload_design_if_changed, hp, hf, hc, hps]
        | some sc => simp [ProjectState.reload_design_if_changed, hp, hf, hc, hps]
      · rw [← hcond]
        simp only [ProjectState.reload_design_if_changed, hp, hf]
        rw [if_neg hc]
        simp [hc]
    · intro sc hps hnewer
      have hc := hcond.mpr hnewer
      simp [ProjectState.reload_design_if_changed, hp, hf, hc, hps]
    · intro hps
      by_cases hc : (st.design_mtime.map (fun t => decide (t < f.mtime))).getD true = true
      · simp [ProjectState.reload_design_if_changed, hp, hf, hc, hps]
      · simp only [ProjectState.reload_design_if_changed, hp, hf]
        rw [if_neg hc]
  · intro hp
    simp [ProjectState.reload_design_if_changed, hp]
  · intro p hp hf
    simp [ProjectState.reload_design_if_changed, hp, hf]

/-- Witness for `reload_policy`: the design file was overwritten with
malformed text at a newer time; the check re-parses but keeps the old
document and baseline. -/
theorem reload_policy_witness :
    ((ProjectState.reload_design_if_changed fsStale stScene).2 = true ↔ True) ∧
    (ProjectState.reload_design_if_changed fsStale stScene).1 = stScene := by
  have h := (reload_policy fsStale stScene).1 "p/design/initial.scene.ron"
    { content := "garbage", mtime := 9 } rfl rfl
  constructor
  · rw [h.1]
    simp
    decide
  · exact h.2.2 (by decide)

/-- C6: open fails when the project config is missing or malformed; with
a parsed config, a missing scene file opens the session with no scene, a
malformed scene file fails the open, and a parsed scene file records its
modification time as the baseline. -/
theorem open_error_policy (fs : Fs) (dir : String) :
    (fs (pjoin dir "project.ron") = none →
      ProjectState.open fs dir = .error ("reading " ++ pjoin dir "project.ron")) ∧
    (∀ cf, fs (pjoin dir "project.ron") = some cf →
      parseConfig cf.content = none →
      ProjectState.open fs dir = .error "parsing project.ron") ∧
    (∀ cf c, fs (pjoin dir "project.ron") = some cf →
      parseConfig cf.content = some c →
      fs (pjoin dir "design/initial.scene.ron") = none →
      ProjectState.open fs dir =
        .ok { root := dir, config := c, last_diagnostics := [],
              design_scene := none, design_path := none, design_mtime := none }) ∧
    (∀ cf c df, fs (pjoin dir "project.ron") = some cf →
      parseConfig cf.content = some c →
      fs (pjoin dir "design/initial.scene.ron") = some df →
      parseScene df.content = none →
      ProjectState.open fs dir = .error "parsing design/initial.scene.ron") ∧
    (∀ cf c df sc, fs (pjoin dir "project.ron") = some cf →
      parseConfig cf.content = some c →
      fs (pjoin dir "design/initial.scene.ron") = some df →
      parseScene df.content = some sc →
      ProjectState.open fs dir =
        .ok { root := dir, config := c, last_diagnostics := [],
              design_scene := some sc,
              design_path := some (pjoin dir "design/initial.scene.ron"),
              design_mtime := some df.mtime }) := by
  refine ⟨?_, ?_, ?_, ?_, ?_⟩
  · intro h
    simp [ProjectState.open, h]
  · intro cf h hc
    simp [ProjectState.open, h, hc]
  · intro cf c h hc hd
    simp [ProjectState.open, h, hc, hd]
  · intro cf c df h hc hd hps
    simp [ProjectState.open, h, hc, hd, hps]
  · intro cf c df sc h hc hd hps
    simp [ProjectState.open, h, hc, hd, hps]

/-- Witness for `open_error_policy`: opening against the empty file
system fails, and opening against a well-formed config and scene file
loads both and records the scene file's modification time. -/
theorem open_error_policy_witness :
    ProjectState.open fsEmpty "p" = .error ("reading " ++ pjoin "p" "project.ron") ∧
    ProjectState.open fsCfgScene "p" =
      .ok { root := "p", config := cfgEx, last_diagnostics := [],
            design_scene := some sceneEx,
            design_path := some (pjoin "p" "design/initial.scene.ron"),
            design_mtime := some 2 } :=
  ⟨(open_error_policy fsEmpty "p").1 rfl,
   (open_error_policy fsCfgScene "p").2.2.2.2
     { content := ⟨serProjectConfig cfgEx⟩, mtime := 1 } cfgEx
     { content := serializeScene sceneEx, mtime := 2 } sceneEx
     (by decide) (by decide) (by decide) (by decide)⟩

/-- C8: the invariant "a scene is in memory exactly when a design path is
known" holds for every state produced by open and is preserved by save
and by the reload check. -/
theorem scene_invariant (fs fs2 fs3 : Fs) (dir : String) (st st2 : ProjectState)
    (wt : Nat) :
    (∀ st0, ProjectState.open fs dir = .ok st0 → st0.sceneInv) ∧
    (st.sceneInv → ((ProjectState.save_design fs2 wt st).2.1).sceneInv) ∧
    (st2.sceneInv → ((ProjectState.reload_design_if_changed fs3 st2).1).sceneInv) := by
  refine ⟨?_, ?_, ?_⟩
  · intro st0 h
    cases hcf : fs (pjoin dir "project.ron") with
    | none => simp [ProjectState.open, hcf] at h
    | some cf =>
      cases hc : parseConfig cf.content with
      | none => simp [ProjectState.open, hcf, hc] at h
      | some c =>
        cases hd : fs (pjoin dir "design/initial.scene.ron") with
        | none =>
          simp [ProjectState.open, hcf, hc, hd] at h
          rw [← h]
          simp [ProjectState.sceneInv]
        | some df =>
          cases hps : parseScene df.content with
          | none => simp [ProjectState.open, hcf, hc, hd, hps] at h
          | some sc =>
            simp [ProjectState.open, hcf, hc, hd, hps] at h
            rw [← h]
            simp [ProjectState.sceneInv]
  · intro hinv
    cases hp : st.design_path with
    | none => simpa [ProjectState.save_design, hp] using hinv
    | some p =>
      cases hs : st.design_scene with
      | none => simpa [ProjectState.save_design, hp, hs] using hinv
      | some sc =>
        simp [ProjectState.save_design, hp, hs, ProjectState.sceneInv]
  · intro hinv
    cases hp : st2.design_path with
    | none => simpa [ProjectState.reload_design_if_changed, hp] using hinv
    | some p =>
      cases hf : fs3 p with
      | none => simpa [ProjectState.reload_design_if_changed, hp, hf] using hinv
      | some f =>
        by_cases hc : (st2.design_mtime.map (fun t => decide (t < f.mtime))).getD true = true
        · cases hps : parseScene f.content with
          | none =>
            simpa [ProjectState.reload_design_if_changed, hp, hf, hc, hps] using hinv
          | some sc =>
            simp [ProjectState.reload_design_if_changed, hp, hf, hc, hps,
              ProjectState.sceneInv]
        · simp only [ProjectState.reload_design_if_changed, hp, hf]
          rw [if_neg hc]
          exact hinv

/-- Witness for `scene_invariant`: the concrete open result, and the
concrete loaded session through save and reload. -/
theorem scene_invariant_witness :
    (∀ st0, ProjectState.open fsCfgScene "p" = .ok st0 → st0.sceneInv) ∧
    ((ProjectState.save_design fsEmpty 5 stScene).2.1).sceneInv ∧
    ((ProjectState.reload_design_if_changed fsStale stScene).1).sceneInv :=
  ⟨(scene_invariant fsCfgScene fsEmpty fsStale "p" stScene stScene 5).1,
   (scene_invariant fsCfgScene fsEmpty fsStale "p" stScene stScene 5).2.1 (by decide),
   (scene_invariant fsCfgScene fsEmpty fsStale "p" stScene stScene 5).2.2 (by decide)⟩

/-! ## Round-trip of the scene text codec (claim C1) -/

/-- `String.mk` inverts `String.data`. -/
theorem strMk_data (s : String) : String.mk s.data = s := by
  cases s
  rfl

/-- Consuming a token from itself plus a remainder leaves the remainder. -/
theorem dropTok_self (t rest : List Char) : dropTok t (t ++ rest) = some rest := by
  induction t with
  | nil => rfl
  | cons c ts ih => simp [dropTok, ih]

/-- Skipping whitespace passes over a whitespace-only prefix. -/
theorem skipWs_ws_append (w xs : List Char) (hw : wsOnly w) :
    skipWs (w ++ xs) = skipWs xs := by
  induction w with
  | nil => rfl
  | cons c w ih =>
    have hc : isWs c = true := hw c (List.mem_cons_self _ _)
    exact (by simp [skipWs, hc] : skipWs ((c :: w) ++ xs) = skipWs (w ++ xs)).trans
      (ih (fun d hd => hw d (List.mem_cons_of_mem _ hd)))

/-- The newline-and-indent separator is whitespace only. -/
theorem wsOnly_nlInd (i : Nat) : wsOnly (nlInd i) := by
  intro c hc
  simp only [nlInd] at hc
  rcases List.mem_cons.mp hc with h | h
  · subst h; decide
  · rw [List.eq_of_mem_replicate h]; decide

/-- `expectTok` ignores a whitespace-only prefix of its input. -/
theorem expectTok_ws (t w xs : List Char) (hw : wsOnly w) :
    expectTok t (w ++ xs) = expectTok t xs := by
  unfold expectTok
  rw [skipWs_ws_append w xs hw]

/-- A token whose first character is not whitespace is consumed from
itself plus a remainder. -/
theorem expect_chars (t : String) (rest : List Char)
    (h : headNotP isWs (chars t) = true ∧ chars t ≠ []) :
    expectTok (chars t) (chars t ++ rest) = some rest := by
  obtain ⟨h1, h2⟩ := h
  cases hc : chars t with
  | nil => exact absurd hc h2
  | cons c cs =>
    rw [hc] at h1
    have h1' : isWs c = false := by simpa [headNotP] using h1
    rw [List.cons_append]
    unfold expectTok
    rw [show skipWs (c :: (cs ++ rest)) = c :: (cs ++ rest) from by simp [skipWs, h1']]
    exact dropTok_self (c :: cs) rest

/-- A token never matches an input starting with a different
non-whitespace character. -/
theorem expect_head_ne (t : List Char) (c : Char) (cs : List Char)
    (hc : isWs c = false) (hne : headNe t c = true) :
    expectTok t (c :: cs) = none := by
  cases t with
  | nil => simp [headNe] at hne
  | cons tc ts =>
    have h : tc ≠ c := by simpa [headNe] using hne
    unfold expectTok
    rw [show skipWs (c :: cs) = c :: cs from by simp [skipWs, hc]]
    simp [dropTok, h]

/-- Two tokens with distinct leading characters never match. -/
theorem expect_chars_ne (t u : String) (rest : List Char)
    (h : charsNeHead t u = true) :
    expectTok (chars t) (chars u ++ rest) = none := by
  unfold charsNeHead at h
  cases ht : t.data with
  | nil => rw [ht] at h; cases hu : u.data <;> rw [hu] at h <;> simp at h
  | cons tc ts =>
    cases hu : u.data with
    | nil => rw [ht, hu] at h; simp at h
    | cons uc us =>
      rw [ht, hu] at h
      simp only [Bool.and_eq_true, Bool.not_eq_true', bne_iff_ne] at h
      rw [show chars u = uc :: us from hu, List.cons_append]
      refine expect_head_ne (chars t) uc (us ++ rest) h.1 ?_
      rw [show chars t = tc :: ts from ht]
      simp [headNe, h.2]

/-- `takeWhile`/`dropWhile` split an all-satisfying prefix from a
remainder whose head fails the predicate. -/
theorem takeWhile_all_append (p : Char → Bool) (xs rest : List Char)
    (hxs : ∀ c ∈ xs, p c = true) (hrest : headNotP p rest = true) :
    (xs ++ rest).takeWhile p = xs ∧ (xs ++ rest).dropWhile p = rest := by
  induction xs with
  | nil =>
    simp only [List.nil_append]
    cases rest with
    | nil => simp
    | cons c cs =>
      have h : p c = false := by simpa [headNotP] using hrest
      simp [List.takeWhile_cons, List.dropWhile_cons, h]
  | cons c cs ih =>
    have hc := hxs c (List.mem_cons_self _ _)
    have h := ih (fun d hd => hxs d (List.mem_cons_of_mem _ hd))
    simp [List.takeWhile_cons, List.dropWhile_cons, hc, h.1, h.2]

/-- A float character is not whitespace. -/
theorem floatChar_not_ws (c : Char) (h : floatChar c = true) : isWs c = false := by
  by_contra hws
  rw [Bool.not_eq_false] at hws
  have : c = ' ' ∨ c = '\n' := by simpa [isWs] using hws
  rcases this with h' | h' <;> rw [h'] at h <;> exact absurd h (by decide)

/-- A float token never matches the `None` keyword. -/
theorem headNe_None_of_floatChar (c : Char) (h : floatChar c = true) :
    headNe (chars "None") c = true := by
  show ('N' != c) = true
  rw [bne_iff_ne]
  intro he
  rw [← he] at h
  exact absurd h (by decide)

/-- `parseF32` ignores a whitespace-only prefix. -/
theorem parseF32_ws (w inp : List Char) (hw : wsOnly w) :
    parseF32 (w ++ inp) = parseF32 inp := by
  unfold parseF32
  rw [skipWs_ws_append w inp hw]

/-- A rendered float token parses back to itself when the remainder does
not begin with a float character. -/
theorem parseF32_rt (v : F32) (rest : List Char)
    (hrest : headNotP floatChar rest = true) :
    parseF32 (serF32 v ++ rest) = some (v, rest) := by
  obtain ⟨s, hne, hall⟩ := v
  cases s with
  | nil => exact absurd rfl hne
  | cons c cs =>
    have hc : floatChar c = true := hall c (List.mem_cons_self _ _)
    have hnws : isWs c = false := floatChar_not_ws c hc
    have hskip : skipWs ((c :: cs) ++ rest) = (c :: cs) ++ rest := by
      rw [List.cons_append]
      simp [skipWs, hnws]
    have htd := takeWhile_all_append floatChar (c :: cs) rest hall hrest
    unfold parseF32 serF32
    simp only [hskip, htd.1, htd.2]
    rw [dif_pos ⟨hne, hall⟩]

/-- `readStrBody` inverts the escaped string body up to the closing
quote. -/
theorem readStrBody_rt (s rest : List Char) :
    readStrBody (escStr s ++ (chars "\"" ++ rest)) = some (s, rest) := by
  induction s with
  | nil =>
    show readStrBody ('\"' :: rest) = some ([], rest)
    unfold readStrBody
    rw [if_neg (by decide), if_pos rfl]
  | cons c cs ih =>
    show readStrBody ((escChar c ++ escStr cs) ++ (chars "\"" ++ rest)) = some (c :: cs, rest)
    by_cases hc : c = '\"' ∨ c = '\\'
    · rw [show escChar c = ['\\', c] from by unfold escChar; rw [if_pos hc]]
      show readStrBody ('\\' :: (c :: (escStr cs ++ (chars "\"" ++ rest)))) = some (c :: cs, rest)
      unfold readStrBody
      rw [if_pos rfl]
      show Option.map (fun p => (c :: p.1, p.2))
        (readStrBody (escStr cs ++ (chars "\"" ++ rest))) = some (c :: cs, rest)
      rw [ih]
      rfl
    · push_neg at hc
      rw [show escChar c = [c] from by unfold escChar; rw [if_neg (not_or.mpr hc)]]
      show readStrBody (c :: (escStr cs ++ (chars "\"" ++ rest))) = some (c :: cs, rest)
      unfold readStrBody
      rw [if_neg hc.2, if_neg hc.1]
      show Option.map (fun p => (c :: p.1, p.2))
        (readStrBody (escStr cs ++ (chars "\"" ++ rest))) = some (c :: cs, rest)
      rw [ih]
      rfl

/-- `parseStrTok` ignores a whitespace-only prefix. -/
theorem parseStrTok_ws (w inp : List Char) (hw : wsOnly w) :
    parseStrTok (w ++ inp) = parseStrTok inp := by
  unfold parseStrTok
  rw [expectTok_ws _ w inp hw]

/-- A serialized string token parses back to the original string. -/
theorem parseStrTok_rt (s : String) (rest : List Char) :
    parseStrTok (serStrTok s ++ rest) = some (s, rest) := by
  unfold parseStrTok serStrTok
  simp only [List.append_assoc]
  rw [expect_chars "\"" _ ⟨by decide, by decide⟩]
  simp [readStrBody_rt, strMk_data]

/-- A serialized boolean parses back to itself. -/
theorem parseBool_rt (b : Bool) (rest : List Char) :
    parseBool (serBool b ++ rest) = some (b, rest) := by
  cases b
  · have h1 : expectTok (chars "true") (serBool false ++ rest) = none := by
      simp only [serBool]
      exact expect_chars_ne "true" "false" rest (by decide)
    have h2 : expectTok (chars "false") (serBool false ++ rest) = some rest := by
      simp only [serBool]
      exact expect_chars "false" rest ⟨by decide, by decide⟩
    simp [parseBool, h1, h2]
  · have h1 : expectTok (chars "true") (serBool true ++ rest) = some rest := by
      simp only [serBool]
      exact expect_chars "true" rest ⟨by decide, by decide⟩
    simp [parseBool, h1]

/-- `parseOpt` ignores a whitespace-only prefix. -/
theorem parseOpt_ws (p : List Char → Option (α × List Char)) (w inp : List Char)
    (hw : wsOnly w) : parseOpt p (w ++ inp) = parseOpt p inp := by
  unfold parseOpt
  rw [expectTok_ws _ w inp hw, expectTok_ws _ w inp hw]

/-- A serialized option parses back to itself, given the payload parser
inverts the payload serializer before a closing parenthesis. -/
theorem parseOpt_rt (p : List Char → Option (α × List Char)) (f : α → List Char)
    (v : Option α) (rest : List Char)
    (hp : ∀ x, v = some x →
      p (f x ++ (chars ")" ++ rest)) = some (x, chars ")" ++ rest)) :
    parseOpt p (serOpt f v ++ rest) = some (v, rest) := by
  cases v with
  | none =>
    have h1 : expectTok (chars "None") (serOpt f none ++ rest) = some rest := by
      simp only [serOpt]
      exact expect_chars "None" rest ⟨by decide, by decide⟩
    simp [parseOpt, h1]
  | some x =>
    have h1 : expectTok (chars "None") (serOpt f (some x) ++ rest) = none := by
      simp only [serOpt, List.append_assoc]
      exact expect_chars_ne "None" "Some(" _ (by decide)
    have h2 : expectTok (chars "Some(") (serOpt f (some x) ++ rest) =
        some (f x ++ (chars ")" ++ rest)) := by
      simp only [serOpt, List.append_assoc]
      exact expect_chars "Some(" _ ⟨by decide, by decide⟩
    have h4 : ∀ X : List Char, expectTok (chars ")") (chars ")" ++ X) = some X :=
      fun X => expect_chars ")" X ⟨by decide, by decide⟩
    simp [parseOpt, h1, h2, hp x rfl, h4]

/-- A serialized float triple parses back to itself. -/
theorem parseTup3_rt (t : F32 × F32 × F32) (rest : List Char) :
    parseTup3 (serTup3 t ++ rest) = some (t, rest) := by
  obtain ⟨a, b, c⟩ := t
  have hA : ∀ v : F32, ∀ X : List Char,
      parseF32 (serF32 v ++ (chars "," ++ X)) = some (v, chars "," ++ X) :=
    fun v X => parseF32_rt v _ rfl
  have hB : ∀ v : F32, ∀ X : List Char,
      parseF32 (serF32 v ++ (chars ")" ++ X)) = some (v, chars ")" ++ X) :=
    fun v X => parseF32_rt v _ rfl
  have hWs : ∀ inp : List Char, parseF32 (chars " " ++ inp) = parseF32 inp :=
    fun inp => parseF32_ws _ _ (by decide)
  have hComma : ∀ X : List Char, expectTok (chars ",") (chars "," ++ X) = some X :=
    fun X => expect_chars "," X ⟨by decide, by decide⟩
  have hRp : ∀ X : List Char, expectTok (chars ")") (chars ")" ++ X) = some X :=
    fun X => expect_chars ")" X ⟨by decide, by decide⟩
  unfold parseTup3 serTup3
  simp only [List.append_assoc]
  rw [expect_chars "(" _ ⟨by decide, by decide⟩]
  simp [hA, hB, hWs, hComma, hRp]

/-- A serialized float quadruple parses back to itself. -/
theorem parseTup4_rt (t : F32 × F32 × F32 × F32) (rest : List Char) :
    parseTup4 (serTup4 t ++ rest) = some (t, rest) := by
  obtain ⟨a, b, c, d⟩ := t
  have hA : ∀ v : F32, ∀ X : List Char,
      parseF32 (serF32 v ++ (chars "," ++ X)) = some (v, chars "," ++ X) :=
    fun v X => parseF32_rt v _ rfl
  have hB : ∀ v : F32, ∀ X : List Char,
      parseF32 (serF32 v ++ (chars ")" ++ X)) = some (v, chars ")" ++ X) :=
    fun v X => parseF32_rt v _ rfl
  have hWs : ∀ inp : List Char, parseF32 (chars " " ++ inp) = parseF32 inp :=
    fun inp => parseF32_ws _ _ (by decide)
  have hComma : ∀ X : List Char, expectTok (chars ",") (chars "," ++ X) = some X :=
    fun X => expect_chars "," X ⟨by decide, by decide⟩
  have hRp : ∀ X : List Char, expectTok (chars ")") (chars ")" ++ X) = some X :=
    fun X => expect_chars ")" X ⟨by decide, by decide⟩
  unfold parseTup4 serTup4
  simp only [List.append_assoc]
  rw [expect_chars "(" _ ⟨by decide, by decide⟩]
  simp [hA, hB, hWs, hComma, hRp]

/-- One serialized field parses back, given the value parser inverts the
serialized value after the single separating space and before the
trailing comma. -/
theorem parseField_rt (name : String) (p : List Char → Option (α × List Char))
    (i : Nat) (sv : List Char) (v : α) (rest : List Char)
    (hname : headNotP isWs (chars name) = true ∧ chars name ≠ [])
    (hp : p (chars " " ++ (sv ++ (chars "," ++ rest))) = some (v, chars "," ++ rest)) :
    parseField name p (serField i name sv ++ rest) = some (v, rest) := by
  have hCm : ∀ X : List Char, expectTok (chars ",") (chars "," ++ X) = some X :=
    fun X => expect_chars "," X ⟨by decide, by decide⟩
  have hCl : ∀ X : List Char, expectTok (chars ":") (chars ":" ++ X) = some X :=
    fun X => expect_chars ":" X ⟨by decide, by decide⟩
  unfold parseField serField
  simp only [List.append_assoc]
  rw [expectTok_ws _ _ _ (wsOnly_nlInd i)]
  rw [expect_chars name _ hname]
  simp [hCl, hCm, hp]

/-- `parseCompData` ignores a whitespace-only prefix. -/
theorem parseCompData_ws (w inp : List Char) (hw : wsOnly w) :
    parseCompData (w ++ inp) = parseCompData inp := by
  unfold parseCompData parseField
  rw [expectTok_ws _ w inp hw]

set_option maxHeartbeats 2000000 in
/-- A serialized `CompData` record parses back to itself. -/
theorem parseCompData_rt (i : Nat) (d : CompData) (rest : List Char) :
    parseCompData (serCompData i d ++ rest) = some (d, rest) := by
  have hOptTup3 : ∀ (v : Option (F32 × F32 × F32)) (X : List Char),
      parseOpt parseTup3 (chars " " ++ (serOpt serTup3 v ++ (chars "," ++ X))) =
        some (v, chars "," ++ X) := fun v X => by
    rw [parseOpt_ws _ _ _ (by decide)]
    exact parseOpt_rt _ _ _ _ (fun x _ => parseTup3_rt x _)
  have hOptTup4 : ∀ (v : Option (F32 × F32 × F32 × F32)) (X : List Char),
      parseOpt parseTup4 (chars " " ++ (serOpt serTup4 v ++ (chars "," ++ X))) =
        some (v, chars "," ++ X) := fun v X => by
    rw [parseOpt_ws _ _ _ (by decide)]
    exact parseOpt_rt _ _ _ _ (fun x _ => parseTup4_rt x _)
  have hOptF32 : ∀ (v : Option F32) (X : List Char),
      parseOpt parseF32 (chars " " ++ (serOpt serF32 v ++ (chars "," ++ X))) =
        some (v, chars "," ++ X) := fun v X => by
    rw [parseOpt_ws _ _ _ (by decide)]
    exact parseOpt_rt _ _ _ _ (fun x _ => parseF32_rt x _ rfl)
  have hOptStr : ∀ (v : Option String) (X : List Char),
      parseOpt parseStrTok (chars " " ++ (serOpt serStrTok v ++ (chars "," ++ X))) =
        some (v, chars "," ++ X) := fun v X => by
    rw [parseOpt_ws _ _ _ (by decide)]
    exact parseOpt_rt _ _ _ _ (fun x _ => parseStrTok_rt x _)
  have hOptBool : ∀ (v : Option Bool) (X : List Char),
      parseOpt parseBool (chars " " ++ (serOpt serBool v ++ (chars "," ++ X))) =
        some (v, chars "," ++ X) := fun v X => by
    rw [parseOpt_ws _ _ _ (by decide)]
    exact parseOpt_rt _ _ _ _ (fun x _ => parseBool_rt x _)
  have hf1 : ∀ X : List Char, parseField "translation" (parseOpt parseTup3)
      (serField (i+1) "translation" (serOpt serTup3 d.translation) ++ X) =
      some (d.translation, X) :=
    fun X => parseField_rt _ _ _ _ _ _ ⟨by decide, by decide⟩ (hOptTup3 _ X)
  have hf2 : ∀ X : List Char, parseField "look_at" (parseOpt parseTup3)
      (serField (i+1) "look_at" (serOpt serTup3 d.look_at) ++ X) =
      some (d.look_at, X) :=
    fun X => parseField_rt _ _ _ _ _ _ ⟨by decide, by decide⟩ (hOptTup3 _ X)
  have hf3 : ∀ X : List Char, parseField "rot_x_deg" (parseOpt parseF32)
      (serField (i+1) "rot_x_deg" (serOpt serF32 d.rot_x_deg) ++ X) =
      some (d.rot_x_deg, X) :=
    fun X => parseField_rt _ _ _ _ _ _ ⟨by decide, by decide⟩ (hOptF32 _ X)
  have hf4 : ∀ X : List Char, parseField "shape" (parseOpt parseStrTok)
      (serField (i+1) "shape" (serOpt serStrTok d.shape) ++ X) =
      some (d.shape, X) :=
    fun X => parseField_rt _ _ _ _ _ _ ⟨by decide, by decide⟩ (hOptStr _ X)
  have hf5 : ∀ X : List Char, parseField "radius" (parseOpt parseF32)
      (serField (i+1) "radius" (serOpt serF32 d.radius) ++ X) =
      some (d.radius, X) :=
    fun X => parseField_rt _ _ _ _ _ _ ⟨by decide, by decide⟩ (hOptF32 _ X)
  have hf6 : ∀ X : List Char, parseField "x" (parseOpt parseF32)
      (serField (i+1) "x" (serOpt serF32 d.x) ++ X) = some (d.x, X) :=
    fun X => parseField_rt _ _ _ _ _ _ ⟨by decide, by decide⟩ (hOptF32 _ X)
  have hf7 : ∀ X : List Char, parseField "y" (parseOpt parseF32)
      (serField (i+1) "y" (serOpt serF32 d.y) ++ X) = some (d.y, X) :=
    fun X => parseField_rt _ _ _ _ _ _ ⟨by decide, by decide⟩ (hOptF32 _ X)
  have hf8 : ∀ X : List Char, parseField "z" (parseOpt parseF32)
      (serField (i+1) "z" (serOpt serF32 d.z) ++ X) = some (d.z, X) :=
    fun X => parseField_rt _ _ _ _ _ _ ⟨by decide, by decide⟩ (hOptF32 _ X)
  have hf9 : ∀ X : List Char, parseField "color" (parseOpt parseTup4)
      (serField (i+1) "color" (serOpt serTup4 d.color) ++ X) =
      some (d.color, X) :=
    fun X => parseField_rt _ _ _ _ _ _ ⟨by decide, by decide⟩ (hOptTup4 _ X)
  have hf10 : ∀ X : List Char, parseField "shadows_enabled" (parseOpt parseBool)
      (serField (i+1) "shadows_enabled" (serOpt serBool d.shadows_enabled) ++ X) =
      some (d.shadows_enabled, X) :=
    fun X => parseField_rt _ _ _ _ _ _ ⟨by decide, by decide⟩ (hOptBool _ X)
  have hcl : ∀ X : List Char,
      expectTok (chars ")") (nlInd i ++ (chars ")" ++ X)) = some X := fun X => by
    rw [expectTok_ws _ _ _ (wsOnly_nlInd i)]
    exact expect_chars ")" X ⟨by decide, by decide⟩
  unfold parseCompData serCompData
  simp only [List.append_assoc]
  rw [expect_chars "CompData(" _ ⟨by decide, by decide⟩]
  simp only [Option.bind_eq_bind, Option.some_bind, hf1, hf2, hf3, hf4, hf5,
    hf6, hf7, hf8, hf9, hf10, hcl]

/-- `parseComponentDoc` ignores a whitespace-only prefix. -/
theorem parseComponentDoc_ws (w inp : List Char) (hw : wsOnly w) :
    parseComponentDoc (w ++ inp) = parseComponentDoc inp := by
  unfold parseComponentDoc
  rw [expectTok_ws _ w inp hw]

set_option maxHeartbeats 1000000 in
/-- A serialized `ComponentDoc` record parses back to itself. -/
theorem parseComponentDoc_rt (i : Nat) (c : ComponentDoc) (rest : List Char) :
    parseComponentDoc (serComponentDoc i c ++ rest) = some (c, rest) := by
  have hf1 : ∀ X : List Char, parseField "type_id" parseStrTok
      (serField (i+1) "type_id" (serStrTok c.type_id) ++ X) = some (c.type_id, X) :=
    fun X => parseField_rt _ _ _ _ _ _ ⟨by decide, by decide⟩ (by
      rw [parseStrTok_ws _ _ (by decide)]
      exact parseStrTok_rt _ _)
  have hf2 : ∀ X : List Char, parseField "data" parseCompData
      (serField (i+1) "data" (serCompData (i+1) c.data) ++ X) = some (c.data, X) :=
    fun X => parseField_rt _ _ _ _ _ _ ⟨by decide, by decide⟩ (by
      rw [parseCompData_ws _ _ (by decide)]
      exact parseCompData_rt _ _ _)
  have hcl : ∀ X : List Char,
      expectTok (chars ")") (nlInd i ++ (chars ")" ++ X)) = some X := fun X => by
    rw [expectTok_ws _ _ _ (wsOnly_nlInd i)]
    exact expect_chars ")" X ⟨by decide, by decide⟩
  unfold parseComponentDoc serComponentDoc
  simp only [List.append_assoc]
  rw [expect_chars "ComponentDoc(" _ ⟨by decide, by decide⟩]
  simp only [Option.bind_eq_bind, Option.some_bind, hf1, hf2, hcl]

/-- Each serialized list element contributes at least one character. -/
theorem serListItems_length (f : α → List Char) (i : Nat) (xs : List α) :
    xs.length ≤ (serListItems f i xs).length := by
  induction xs with
  | nil => simp [serListItems]
  | cons x xs ih =>
    simp only [serListItems, List.map_cons, List.flatten_cons, List.length_append,
      List.length_cons, nlInd, List.length_replicate] at *
    omega

/-- The element block of a serialized list parses back, given enough
fuel, an element parser inverting the element serializer, and elements
whose first character is not whitespace and not the closing bracket. -/
theorem parseListAux_rt (p : List Char → Option (α × List Char))
    (f : α → List Char) (i : Nat) (xs : List α) :
    ∀ (fuel : Nat) (rest : List Char), xs.length < fuel →
    (∀ x ∈ xs, ∀ r : List Char, p (nlInd (i+1) ++ (f x ++ r)) = some (x, r)) →
    (∀ x ∈ xs, ∃ c cs, f x = c :: cs ∧ isWs c = false ∧
      headNe (chars "]") c = true) →
    parseListAux p fuel (serListItems f i xs ++ (nlInd i ++ (chars "]" ++ rest))) =
      some (xs, rest) := by
  induction xs with
  | nil =>
    intro fuel rest hfuel hp hh
    cases fuel with
    | zero => omega
    | succ n =>
      have hbr : expectTok (chars "]")
          (serListItems f i [] ++ (nlInd i ++ (chars "]" ++ rest))) = some rest := by
        simp only [serListItems, List.map_nil, List.flatten_nil, List.nil_append]
        rw [expectTok_ws _ _ _ (wsOnly_nlInd i)]
        exact expect_chars "]" rest ⟨by decide, by decide⟩
      unfold parseListAux
      rw [hbr]
  | cons x xs ih =>
    intro fuel rest hfuel hp hh
    cases fuel with
    | zero => omega
    | succ n =>
      obtain ⟨c, cs, hfx, hcws, hhne⟩ := hh x (List.mem_cons_self _ _)
      have hbr : expectTok (chars "]")
          (serListItems f i (x :: xs) ++ (nlInd i ++ (chars "]" ++ rest))) = none := by
        simp only [serListItems, List.map_cons, List.flatten_cons, List.append_assoc]
        rw [expectTok_ws _ _ _ (wsOnly_nlInd (i+1)), hfx, List.cons_append]
        exact expect_head_ne _ c _ hcws hhne
      have hp1 : p (serListItems f i (x :: xs) ++ (nlInd i ++ (chars "]" ++ rest))) =
          some (x, chars "," ++ (serListItems f i xs ++ (nlInd i ++ (chars "]" ++ rest)))) := by
        simp only [serListItems, List.map_cons, List.flatten_cons, List.append_assoc]
        exact hp x (List.mem_cons_self _ _) _
      have hcm : ∀ X : List Char, expectTok (chars ",") (chars "," ++ X) = some X :=
        fun X => expect_chars "," X ⟨by decide, by decide⟩
      have hrec := ih n rest (by simpa using Nat.lt_of_succ_lt_succ hfuel)
        (fun y hy r => hp y (List.mem_cons_of_mem _ hy) r)
        (fun y hy => hh y (List.mem_cons_of_mem _ hy))
      unfold parseListAux
      rw [hbr]
      simp only [Option.bind_eq_bind, Option.some_bind, hp1, hcm, hrec]

/-- `parseList` ignores a whitespace-only prefix. -/
theorem parseList_ws (p : List Char → Option (α × List Char)) (w inp : List Char)
    (hw : wsOnly w) : parseList p (w ++ inp) = parseList p inp := by
  unfold parseList
  rw [expectTok_ws _ w inp hw]

/-- A serialized list parses back to itself under the same element
conditions as `parseListAux_rt`. -/
theorem parseList_rt (p : List Char → Option (α × List Char)) (f : α → List Char)
    (i : Nat) (xs : List α) (rest : List Char)
    (hp : ∀ x ∈ xs, ∀ r : List Char, p (nlInd (i+1) ++ (f x ++ r)) = some (x, r))
    (hh : ∀ x ∈ xs, ∃ c cs, f x = c :: cs ∧ isWs c = false ∧
      headNe (chars "]") c = true) :
    parseList p (serList f i xs ++ rest) = some (xs, rest) := by
  cases xs with
  | nil =>
    have hbr : expectTok (chars "]") (chars "]" ++ rest) = some rest :=
      expect_chars "]" rest ⟨by decide, by decide⟩
    unfold parseList serList
    simp only [List.append_assoc]
    rw [expect_chars "[" _ ⟨by decide, by decide⟩]
    simp only [Option.bind_eq_bind, Option.some_bind]
    unfold parseListAux
    rw [hbr]
  | cons y ys =>
    have h1 := serListItems_length f i (y :: ys)
    unfold parseList serList
    simp only [List.append_assoc]
    rw [expect_chars "[" _ ⟨by decide, by decide⟩]
    simp only [Option.bind_eq_bind, Option.some_bind]
    refine parseListAux_rt p f i (y :: ys) _ rest ?_ hp hh
    simp only [List.length_append]
    omega

/-- `parseEntityDoc` ignores a whitespace-only prefix. -/
theorem parseEntityDoc_ws (w inp : List Char) (hw : wsOnly w) :
    parseEntityDoc (w ++ inp) = parseEntityDoc inp := by
  unfold parseEntityDoc
  rw [expectTok_ws _ w inp hw]

set_option maxHeartbeats 1000000 in
/-- A serialized `EntityDoc` record parses back to itself. -/
theorem parseEntityDoc_rt (i : Nat) (e : EntityDoc) (rest : List Char) :
    parseEntityDoc (serEntityDoc i e ++ rest) = some (e, rest) := by
  have hcomp : ∀ X : List Char, parseList parseComponentDoc
      (chars " " ++ (serList (serComponentDoc (i+2)) (i+1) e.components ++
        (chars "," ++ X))) =
      some (e.components, chars "," ++ X) := fun X => by
    rw [parseList_ws _ _ _ (by decide)]
    exact parseList_rt _ _ _ _ _
      (fun x _ r => by
        rw [parseComponentDoc_ws _ _ (wsOnly_nlInd (i+2))]
        exact parseComponentDoc_rt _ _ _)
      (fun x _ => ⟨'C', _, rfl, by decide, by decide⟩)
  have hf1 : ∀ X : List Char, parseField "id" parseStrTok
      (serField (i+1) "id" (serStrTok e.id) ++ X) = some (e.id, X) :=
    fun X => parseField_rt _ _ _ _ _ _ ⟨by decide, by decide⟩ (by
      rw [parseStrTok_ws _ _ (by decide)]
      exact parseStrTok_rt _ _)
  have hf2 : ∀ X : List Char, parseField "components" (parseList parseComponentDoc)
      (serField (i+1) "components"
        (serList (serComponentDoc (i+2)) (i+1) e.components) ++ X) =
      some (e.components, X) :=
    fun X => parseField_rt _ _ _ _ _ _ ⟨by decide, by decide⟩ (hcomp X)
  have hcl : ∀ X : List Char,
      expectTok (chars ")") (nlInd i ++ (chars ")" ++ X)) = some X := fun X => by
    rw [expectTok_ws _ _ _ (wsOnly_nlInd i)]
    exact expect_chars ")" X ⟨by decide, by decide⟩
  unfold parseEntityDoc serEntityDoc
  simp only [List.append_assoc]
  rw [expect_chars "EntityDoc(" _ ⟨by decide, by decide⟩]
  simp only [Option.bind_eq_bind, Option.some_bind, hf1, hf2, hcl]

set_option maxHeartbeats 1000000 in
/-- A serialized `SceneDoc` parses back to itself before any remainder. -/
theorem parseSceneDoc_rt (d : SceneDoc) (rest : List Char) :
    parseSceneDoc (serSceneDoc d ++ rest) = some (d, rest) := by
  have hents : ∀ X : List Char, parseList parseEntityDoc
      (chars " " ++ (serList (serEntityDoc 2) 1 d.entities ++ (chars "," ++ X))) =
      some (d.entities, chars "," ++ X) := fun X => by
    rw [parseList_ws _ _ _ (by decide)]
    exact parseList_rt _ _ _ _ _
      (fun x _ r => by
        rw [parseEntityDoc_ws _ _ (wsOnly_nlInd 2)]
        exact parseEntityDoc_rt 2 x r)
      (fun x _ => ⟨'E', _, rfl, by decide, by decide⟩)
  have hf1 : ∀ X : List Char, parseField "entities" (parseList parseEntityDoc)
      (serField 1 "entities" (serList (serEntityDoc 2) 1 d.entities) ++ X) =
      some (d.entities, X) :=
    fun X => parseField_rt _ _ _ _ _ _ ⟨by decide, by decide⟩ (hents X)
  have hcl : ∀ X : List Char,
      expectTok (chars ")") (nlInd 0 ++ (chars ")" ++ X)) = some X := fun X => by
    rw [expectTok_ws _ _ _ (wsOnly_nlInd 0)]
    exact expect_chars ")" X ⟨by decide, by decide⟩
  unfold parseSceneDoc serSceneDoc
  simp only [List.append_assoc]
  rw [expect_chars "SceneDoc(" _ ⟨by decide, by decide⟩]
  simp only [Option.bind_eq_bind, Option.some_bind, hf1, hcl]

/-- C1: serializing any scene document in the pretty text form used by
save and parsing the result yields the same document — in particular the
entity sequence and every entity's component sequence come back in
exactly the same order. -/
theorem scene_round_trip (d : SceneDoc) :
    parseScene (serializeScene d) = some d := by
  unfold parseScene serializeScene
  rw [show (String.mk (serSceneDoc d)).data = serSceneDoc d from rfl]
  rw [show serSceneDoc d = serSceneDoc d ++ [] from (List.append_nil _).symm]
  rw [parseSceneDoc_rt d []]
  rfl
